import Mathlib

/-!
# SnoopR core: shallow embedding

A shallow embedding of the core logic of SnoopR.py: coordinate
validation, string sanitization, device-detection normalization,
movement-based snooper detection, alert normalization, and alert
geolocation inference.

Modelling conventions:
* Python floats (coordinates, timestamps, thresholds) are modelled as
  exact rationals where the source only stores and compares them, and
  as reals where the source applies transcendental math (the haversine
  distance).
* Python strings are Lean strings (kernel-level lists of characters);
  replacing a one-character substring by the empty string is character
  filtering.
* Python None is Option.none; truthiness tests on numbers are modelled
  explicitly as "present and nonzero".
* SQLite rows are records already carrying parsed numeric values, since
  the source reads them through the sqlite3 driver as numbers.
* Fields of the source records that no verified property touches (the
  formatted last_seen_time display string and the drone_detected
  heuristic flag) are omitted from the embedded records.
-/

namespace SnoopR

/-! ## GeoMath: the haversine distance (source lines 117-130) -/

/-- Degrees to radians, as math.radians does. -/
noncomputable def deg2rad (x : ℝ) : ℝ := x * (Real.pi / 180)

/-- The function haversine(lon1, lat1, lon2, lat2): great-circle
distance in miles on a sphere of radius 3956, from decimal-degree
inputs. -/
noncomputable def haversine (lon1 lat1 lon2 lat2 : ℝ) : ℝ :=
  let rlon1 := deg2rad lon1
  let rlat1 := deg2rad lat1
  let rlon2 := deg2rad lon2
  let rlat2 := deg2rad lat2
  let dlon := rlon2 - rlon1
  let dlat := rlat2 - rlat1
  let a := Real.sin (dlat / 2) ^ 2 +
    Real.cos rlat1 * Real.cos rlat2 * Real.sin (dlon / 2) ^ 2
  let c := 2 * Real.arcsin (Real.sqrt a)
  3956 * c

/-! ## String sanitization (source lines 132-150) -/

/-- The characters stripped by sanitize_string. -/
def sanitizeChars : List Char :=
  ['{', '}', '|', '[', ']', '"', '\'', '\\', '<', '>', '%']

/-- The replacement loop of sanitize_string: successively replace each
sanitized character by the empty string. -/
def stripChars (s : String) : String :=
  ⟨sanitizeChars.foldl (fun acc c => acc.filter (fun x => x != c)) s.data⟩

/-- The function sanitize_string: falsy input (absent or empty) becomes
the literal Unknown, otherwise the sanitized characters are stripped. -/
def sanitize_string : Option String → String
  | none => "Unknown"
  | some s => if s = "" then ("Unknown") else stripChars s

/-! ## Coordinate validation (source lines 170-190) -/

/-- The function is_valid_lat_lon on already-numeric input: in range
and not the (0, 0) sentinel. -/
def is_valid_lat_lon (lat lon : ℚ) : Bool :=
  decide (-90 ≤ lat ∧ lat ≤ 90 ∧ -180 ≤ lon ∧ lon ≤ 180 ∧ ¬(lat = 0 ∧ lon = 0))

/-- Validity on possibly-absent input: float(None) raises, which the
source catches and turns into False. -/
def is_valid_opt : Option ℚ → Option ℚ → Bool
  | some lat, some lon => is_valid_lat_lon lat lon
  | _, _ => false

/-! ## Device extraction (source lines 196-292) -/

/-- The part of the decoded device JSON blob the source reads. -/
structure DeviceDict where
  commonname : Option String
  crypt : Option String
deriving DecidableEq

/-- Outcome of fetching and decoding the device blob column: absent
(falsy), a decode failure, or a decoded dictionary. -/
inductive DeviceBlob
  | absent
  | bad
  | ok (d : DeviceDict)
deriving DecidableEq

/-- One row of the devices query (devmac, type, device, min_lat,
min_lon, last_time); the query filters NULL coordinates out. -/
structure DeviceRow where
  devmac : Option String
  devType : Option String
  blob : DeviceBlob
  minLat : ℚ
  minLon : ℚ
  lastTime : Option ℚ
deriving DecidableEq

/-- A normalized device detection record. -/
structure Detection where
  mac : String
  device_type : String
  name : String
  encryption : String
  lat : Option ℚ
  lon : Option ℚ
  lastTime : Option ℚ
deriving DecidableEq

/-- Decode failure and absent blob both leave an empty dictionary for
device rows (source lines 233-246). -/
def dictOfDeviceBlob : DeviceBlob → DeviceDict
  | .ok d => d
  | _ => ⟨none, none⟩

/-- Character-wise lowercasing, the meaning of the lower() method. -/
def lowerString (s : String) : String := ⟨s.data.map Char.toLower⟩

/-- Lowercased sanitization with fallback on falsy input, used for both
the MAC and the device-type strings. -/
def normLower : Option String → String
  | some m => if m = "" then ("unknown") else lowerString (sanitize_string (some m))
  | none => "unknown"

/-- Storing last_time if last_time else None: zero is falsy. -/
def truthyTime : Option ℚ → Option ℚ
  | some t => if t = 0 then none else some t
  | none => none

/-- Processing of a single device row: returns the detection record, or
none when the coordinates are invalid and the row is skipped (source
lines 230-287). -/
def processDevice (r : DeviceRow) : Option Detection :=
  let dd := dictOfDeviceBlob r.blob
  let device_type := normLower r.devType
  let mac := normLower r.devmac
  if is_valid_lat_lon r.minLat r.minLon then
    some { mac := mac
           device_type := device_type
           name := sanitize_string (some (dd.commonname.getD ("Unknown")))
           encryption := sanitize_string (some (dd.crypt.getD ("Unknown")))
           lat := some r.minLat
           lon := some r.minLon
           lastTime := truthyTime r.lastTime }
  else none

/-- Append a detection to the entry for the given MAC, creating the
entry at the end when absent: the insertion-ordered defaultdict. -/
def addDetection (acc : List (String × List Detection)) (mac : String)
    (d : Detection) : List (String × List Detection) :=
  match acc with
  | [] => [(mac, [d])]
  | (k, ds) :: rest =>
    if k = mac then (k, ds ++ [d]) :: rest
    else (k, ds) :: addDetection rest mac d

/-- The function extract_device_detections: normalize every row,
skipping rows with invalid coordinates, grouping results by the
normalized MAC. -/
def extract_device_detections (rows : List DeviceRow) :
    List (String × List Detection) :=
  rows.foldl
    (fun acc r =>
      match processDevice r with
      | some det => addDetection acc det.mac det
      | none => acc)
    []

/-! ## Snooper detection (source lines 294-331) -/

/-- The sort key last_time or 0 (null and zero both map to 0). -/
def timeKey (d : Detection) : ℚ := d.lastTime.getD 0

/-- The ordering used by the sorting call with that key. -/
abbrev detLe (a b : Detection) : Prop := timeKey a ≤ timeKey b

instance : IsTotal Detection detLe := ⟨fun a b => le_total (timeKey a) (timeKey b)⟩

instance : IsTrans Detection detLe := ⟨fun _ _ _ hab hbc => le_trans hab hbc⟩

/-- Sorting the detections of one device by the time key. -/
def sortDetections (l : List Detection) : List Detection :=
  List.insertionSort detLe l

/-- Distance between two detections when both carry coordinates; none
models the guard that skips pairs with missing coordinates. -/
noncomputable def pairDistance (d1 d2 : Detection) : Option ℝ :=
  match d1.lat, d1.lon, d2.lat, d2.lon with
  | some lat1, some lon1, some lat2, some lon2 =>
    some (haversine (lon1 : ℝ) (lat1 : ℝ) (lon2 : ℝ) (lat2 : ℝ))
  | _, _, _, _ => none

/-- The per-device loop of detect_snoopers: walk consecutive pairs in
order, accumulate the distance, and return the accumulated total at
the first pair whose distance reaches the threshold (the source breaks
out of the loop there); none when no pair reaches it. -/
noncomputable def walkPairs (thr : ℝ) : Detection → List Detection → ℝ → Option ℝ
  | _, [], _ => none
  | prev, d :: ds, acc =>
    match pairDistance prev d with
    | some dist =>
      if thr ≤ dist then some (acc + dist)
      else walkPairs thr d ds (acc + dist)
    | none => walkPairs thr d ds acc

/-- A snooper finding: the device, its sorted detections, and the
accumulated distance recorded at the breach. -/
structure Snooper where
  mac : String
  detections : List Detection
  total_distance : ℝ

/-- The body of the per-device iteration of detect_snoopers. -/
noncomputable def snooperOf (thr : ℝ) (md : String × List Detection) :
    Option Snooper :=
  if md.2.length < 2 then none
  else
    match sortDetections md.2 with
    | [] => none
    | d0 :: rest =>
      (walkPairs thr d0 rest 0).map fun td =>
        { mac := md.1, detections := d0 :: rest, total_distance := td }

/-- The function detect_snoopers over the grouped detections and a
movement threshold in miles. -/
noncomputable def detect_snoopers (dd : List (String × List Detection))
    (thr : ℝ) : List Snooper :=
  dd.filterMap (snooperOf thr)

/-! ## Alert extraction (source lines 333-423) -/

/-- The location sub-structure of a decoded alert blob. -/
structure LocDict where
  geopoint : Option (List ℚ)
  lat : Option ℚ
  lon : Option ℚ
deriving DecidableEq

/-- The part of the decoded alert JSON blob the source reads. -/
structure AlertDict where
  text : Option String
  cls : Option String
  location : Option LocDict
deriving DecidableEq

/-- Outcome of fetching and decoding the alert blob column. -/
inductive AlertBlob
  | absent
  | bad
  | ok (d : AlertDict)
deriving DecidableEq

/-- One row of the alerts query (devmac, json, ts_sec). -/
structure AlertRow where
  devmac : Option String
  blob : AlertBlob
  tsSec : Option ℚ
deriving DecidableEq

/-- A normalized alert record. -/
structure Alert where
  mac : String
  message : String
  alert_type : String
  lat : Option ℚ
  lon : Option ℚ
  time : Option ℚ
deriving DecidableEq

/-- Coercing float(x) if x else None: absent and zero both become
null. -/
def truthyFloat : Option ℚ → Option ℚ
  | some q => if q = 0 then none else some q
  | none => none

/-- Raw latitude/longitude extraction from a decoded alert dictionary:
a two-element geopoint of shape lon-lat wins, otherwise the separate
lat/lon keys of the location sub-structure (source lines 391-399). -/
def rawLatLon (d : AlertDict) : Option ℚ × Option ℚ :=
  let loc := d.location.getD ⟨none, none, none⟩
  match loc.geopoint with
  | some l => if l.length = 2 then (l.get? 1, l.get? 0) else (loc.lat, loc.lon)
  | none => (loc.lat, loc.lon)

/-- Processing of a single alert row: none exactly when the blob fails
to decode (the source skips the record); an absent blob keeps the
defaults (source lines 363-420). -/
def processAlert (r : AlertRow) : Option Alert :=
  let time := truthyTime r.tsSec
  let mac := normLower r.devmac
  match r.blob with
  | .bad => none
  | .absent =>
    some { mac := mac
           message := sanitize_string (some ("No message"))
           alert_type := sanitize_string (some ("Unknown"))
           lat := none
           lon := none
           time := time }
  | .ok d =>
    let raw := rawLatLon d
    some { mac := mac
           message := sanitize_string (some (d.text.getD ("No message")))
           alert_type := sanitize_string (some (d.cls.getD ("Unknown")))
           lat := truthyFloat raw.1
           lon := truthyFloat raw.2
           time := time }

/-- The function extract_alerts_from_kismet: per-row processing,
skipping rows whose blob fails to decode. -/
def extract_alerts_from_kismet (rows : List AlertRow) : List Alert :=
  rows.filterMap processAlert

/-! ## Alert placement in the visualization (source lines 443-454 and
587-615) -/

/-- The device_data list built at the start of the visualization:
flatten the per-device detection lists, drop invalid coordinates, sort
chronologically. -/
def device_data_of (dd : List (String × List Detection)) : List Detection :=
  sortDetections
    ((dd.map Prod.snd).flatten.filter fun d => is_valid_opt d.lat d.lon)

/-- The relocation logic for an alert without valid coordinates
(source lines 598-615): with a timestamp and a nonempty device list,
use the last device at or before the alert time (truthy timestamps
only), else the first device, each with an offset of 0.0005 on both
axes; without a timestamp or without devices, use the map center. -/
def locate_invalid (center : ℚ × ℚ) (device_data : List Detection)
    (a : Alert) : ℚ × ℚ :=
  match a.time with
  | some t =>
    match device_data with
    | [] => center
    | _ :: _ =>
      let before := device_data.filter fun d =>
        match d.lastTime with
        | some u => decide (u ≠ 0 ∧ u ≤ t)
        | none => false
      match before.getLast? with
      | some ref => (ref.lat.getD 0 + 1/2000, ref.lon.getD 0 + 1/2000)
      | none =>
        match device_data.head? with
        | some ref => (ref.lat.getD 0 + 1/2000, ref.lon.getD 0 + 1/2000)
        | none => center
  | none => center

/-- Final coordinates of an alert marker: valid coordinates pass
through unchanged, invalid ones are relocated. -/
def resolve_alert (center : ℚ × ℚ) (device_data : List Detection)
    (a : Alert) : ℚ × ℚ :=
  if is_valid_opt a.lat a.lon then (a.lat.getD 0, a.lon.getD 0)
  else locate_invalid center device_data a

/-! ## Specification-side helpers used in theorem statements -/

/-- Haversine distance between two detections read off their stored
coordinates (meaningful when both are present). -/
noncomputable def distOf (d1 d2 : Detection) : ℝ :=
  haversine ((d1.lon.getD 0 : ℚ) : ℝ) ((d1.lat.getD 0 : ℚ) : ℝ)
    ((d2.lon.getD 0 : ℚ) : ℝ) ((d2.lat.getD 0 : ℚ) : ℝ)

/-- Distances between consecutive detections of a track. -/
noncomputable def consecDists : List Detection → List ℝ
  | [] => []
  | [_] => []
  | d1 :: d2 :: rest => distOf d1 d2 :: consecDists (d2 :: rest)

/-- A detection carrying both coordinates. -/
def HasCoords (d : Detection) : Prop := d.lat ≠ none ∧ d.lon ≠ none

instance (d : Detection) : Decidable (HasCoords d) :=
  inferInstanceAs (Decidable (d.lat ≠ none ∧ d.lon ≠ none))

/-! ## Properties of the haversine distance -/

/-- Identical endpoints give distance zero. -/
lemma haversine_self (lon lat : ℝ) : haversine lon lat lon lat = 0 := by
  simp [haversine]

/-- Squared sine of a halved difference is symmetric in the
difference. -/
lemma sin_half_sub_sq (x y : ℝ) :
    Real.sin ((x - y) / 2) ^ 2 = Real.sin ((y - x) / 2) ^ 2 := by
  rw [show (x - y) / 2 = -((y - x) / 2) by ring, Real.sin_neg, neg_sq]

/-- The haversine distance is symmetric in its two endpoints. -/
lemma haversine_comm (lon1 lat1 lon2 lat2 : ℝ) :
    haversine lon1 lat1 lon2 lat2 = haversine lon2 lat2 lon1 lat1 := by
  simp only [haversine]
  rw [sin_half_sub_sq (deg2rad lat2) (deg2rad lat1),
    sin_half_sub_sq (deg2rad lon2) (deg2rad lon1),
    mul_comm (Real.cos (deg2rad lat1)) (Real.cos (deg2rad lat2))]

/-- The haversine distance is nonnegative. -/
lemma haversine_nonneg (lon1 lat1 lon2 lat2 : ℝ) :
    0 ≤ haversine lon1 lat1 lon2 lat2 := by
  simp only [haversine]
  have h := Real.arcsin_nonneg.mpr (Real.sqrt_nonneg
    (Real.sin ((deg2rad lat2 - deg2rad lat1) / 2) ^ 2 +
      Real.cos (deg2rad lat1) * Real.cos (deg2rad lat2) *
        Real.sin ((deg2rad lon2 - deg2rad lon1) / 2) ^ 2))
  nlinarith

/-- C8: the distance function is the haversine form on a sphere of
radius 3956 miles; it vanishes on identical pairs, is symmetric, and is
nonnegative on every input. -/
theorem haversine_spec :
    (∀ lon lat : ℝ, haversine lon lat lon lat = 0) ∧
    (∀ lon1 lat1 lon2 lat2 : ℝ,
      haversine lon1 lat1 lon2 lat2 = haversine lon2 lat2 lon1 lat1) ∧
    (∀ lon1 lat1 lon2 lat2 : ℝ, 0 ≤ haversine lon1 lat1 lon2 lat2) :=
  ⟨haversine_self, haversine_comm, haversine_nonneg⟩

/-! ## Properties of sanitization -/

/-- Membership after the replacement loop: the character was in the
input and is none of the filtered characters. -/
lemma mem_foldl_filter (cs : List Char) (s : List Char) (x : Char)
    (hx : x ∈ cs.foldl (fun acc c => acc.filter (fun y => y != c)) s) :
    x ∈ s ∧ x ∉ cs := by
  induction cs generalizing s with
  | nil => simpa using hx
  | cons c cs ih =>
    simp only [List.foldl_cons] at hx
    obtain ⟨h1, h2⟩ := ih _ hx
    rw [List.mem_filter] at h1
    have hxc : x ≠ c := by simpa using h1.2
    exact ⟨h1.1, by simp [List.mem_cons, hxc, h2]⟩

/-- No sanitized character survives the replacement loop. -/
lemma stripChars_not_mem (s : String) (c : Char) (hc : c ∈ sanitizeChars) :
    c ∉ (stripChars s).data := by
  intro hmem
  exact (mem_foldl_filter sanitizeChars s.data c hmem).2 hc

/-- C6 (amended): sanitization removes every occurrence of each
sanitized character, and falsy input (absent or the empty string)
returns the literal Unknown; but a non-empty input made only of
sanitized characters returns the empty string, so the never-empty part
of the claim is dropped. -/
theorem sanitize_strips_and_defaults :
    (∀ (x : Option String) (c : Char), c ∈ sanitizeChars →
      c ∉ (sanitize_string x).data) ∧
    sanitize_string none = "Unknown" ∧
    sanitize_string (some ("")) = "Unknown" := by
  refine ⟨?_, rfl, rfl⟩
  have hunk : ∀ c, c ∈ sanitizeChars → c ∉ ("Unknown" : String).data := by
    decide
  intro x c hc
  match x with
  | none => exact hunk c hc
  | some s =>
    by_cases hs : s = ""
    · subst hs
      simpa [sanitize_string] using hunk c hc
    · simpa [sanitize_string, hs] using stripChars_not_mem s c hc

/-- Witness for C6: the opening-brace character is sanitized and indeed
absent from a sanitized sample. -/
theorem sanitize_strips_and_defaults_witness :
    '{' ∈ sanitizeChars ∧ '{' ∉ (sanitize_string (some ("a\x7bb"))).data :=
  ⟨by decide, sanitize_strips_and_defaults.1 (some ("a\x7bb")) '{' (by decide)⟩

/-- Counterexample for C6 as stated: a non-empty input consisting of a
brace pair sanitizes to the empty string. -/
theorem sanitize_nonempty_counterexample :
    ("\x7b\x7d" : String) ≠ "" ∧ sanitize_string (some ("\x7b\x7d")) = "" := by
  constructor
  · decide
  · decide

/-! ## Invariants of device extraction -/

/-- The truthiness coercion never stores a zero timestamp. -/
lemma truthyTime_ne_some_zero (x : Option ℚ) : truthyTime x ≠ some 0 := by
  match x with
  | none => simp [truthyTime]
  | some t =>
    by_cases ht : t = 0 <;> simp [truthyTime, ht]

/-- Any detection emitted for a row has valid present coordinates and a
nonzero (or absent) timestamp. -/
lemma processDevice_good (r : DeviceRow) (det : Detection)
    (h : processDevice r = some det) :
    is_valid_opt det.lat det.lon = true ∧ det.lastTime ≠ some 0 := by
  by_cases hv : is_valid_lat_lon r.minLat r.minLon
  · simp only [processDevice, hv, if_true, Option.some.injEq] at h
    subst h
    exact ⟨by simpa [is_valid_opt] using hv, truthyTime_ne_some_zero _⟩
  · simp [processDevice, hv] at h

/-- Adding one detection to the grouped accumulator preserves a
per-detection predicate. -/
lemma addDetection_forall {P : Detection → Prop}
    (acc : List (String × List Detection)) (mac : String) (d : Detection)
    (hacc : ∀ p ∈ acc, ∀ x ∈ p.2, P x) (hd : P d) :
    ∀ p ∈ addDetection acc mac d, ∀ x ∈ p.2, P x := by
  induction acc with
  | nil =>
    intro p hp x hx
    simp only [addDetection, List.mem_singleton] at hp
    subst hp
    simp only [List.mem_singleton] at hx
    subst hx
    exact hd
  | cons a rest ih =>
    obtain ⟨k, ds⟩ := a
    intro p hp x hx
    simp only [addDetection] at hp
    by_cases hk : k = mac
    · simp only [hk, if_true, List.mem_cons] at hp
      rcases hp with rfl | hp
      · rcases List.mem_append.mp hx with h1 | h1
        · exact hacc (k, ds) (by simp) x h1
        · simp only [List.mem_singleton] at h1
          subst h1
          exact hd
      · exact hacc p (List.mem_cons_of_mem _ hp) x hx
    · simp only [hk, if_false, List.mem_cons] at hp
      rcases hp with rfl | hp
      · exact hacc (k, ds) (by simp) x hx
      · exact ih (fun q hq => hacc q (List.mem_cons_of_mem _ hq)) p hp x hx

/-- Every detection in the grouped extraction output satisfies any
predicate that holds of every emitted detection. -/
lemma extract_device_forall {P : Detection → Prop}
    (hP : ∀ r det, processDevice r = some det → P det) (rows : List DeviceRow) :
    ∀ p ∈ extract_device_detections rows, ∀ x ∈ p.2, P x := by
  suffices haux : ∀ (rs : List DeviceRow) (acc : List (String × List Detection)),
      (∀ p ∈ acc, ∀ x ∈ p.2, P x) →
      ∀ p ∈ rs.foldl
        (fun acc r =>
          match processDevice r with
          | some det => addDetection acc det.mac det
          | none => acc) acc, ∀ x ∈ p.2, P x by
    exact haux rows [] (by simp)
  intro rs
  induction rs with
  | nil => intro acc hacc; simpa using hacc
  | cons r rs ih =>
    intro acc hacc
    simp only [List.foldl_cons]
    cases hr : processDevice r with
    | none => simpa [hr] using ih acc hacc
    | some det =>
      simp only [hr]
      exact ih _ (addDetection_forall acc det.mac det hacc (hP r det hr))

/-- The invariant of extraction used below: detections carry valid
present coordinates and never a zero timestamp. -/
lemma extract_device_invariant (rows : List DeviceRow) :
    ∀ p ∈ extract_device_detections rows, ∀ x ∈ p.2,
      is_valid_opt x.lat x.lon = true ∧ x.lastTime ≠ some 0 :=
  extract_device_forall (fun r det h => processDevice_good r det h) rows

/-- C2: every detection present in the normalized output has a present,
in-range, non-(0,0) coordinate pair; invalid rows are dropped whole,
never carried with null coordinates. -/
theorem extract_device_only_valid (rows : List DeviceRow) (mac : String)
    (dets : List Detection) (hmem : (mac, dets) ∈ extract_device_detections rows)
    (det : Detection) (hdet : det ∈ dets) :
    ∃ la lo, det.lat = some la ∧ det.lon = some lo ∧
      -90 ≤ la ∧ la ≤ 90 ∧ -180 ≤ lo ∧ lo ≤ 180 ∧ ¬(la = 0 ∧ lo = 0) := by
  have h := (extract_device_invariant rows (mac, dets) hmem det hdet).1
  cases hla : det.lat with
  | none => simp [is_valid_opt, hla] at h
  | some la =>
    cases hlo : det.lon with
    | none => simp [is_valid_opt, hla, hlo] at h
    | some lo =>
      rw [hla, hlo] at h
      simp only [is_valid_opt, is_valid_lat_lon, decide_eq_true_eq] at h
      exact ⟨la, lo, rfl, rfl, h.1, h.2.1, h.2.2.1, h.2.2.2.1, h.2.2.2.2⟩

/-- Witness for C2 at a concrete batch: the surviving detection of a
two-row batch (one valid, one out of range) has valid coordinates. -/
theorem extract_device_only_valid_witness :
    (("aa", [(⟨"aa", "unknown", "Unknown", "Unknown", some 10, some 20,
        some 5⟩ : Detection)]) ∈
      extract_device_detections
        [⟨some ("AA"), none, DeviceBlob.absent, 10, 20, some 5⟩,
         ⟨some ("BB"), none, DeviceBlob.absent, 200, 20, some 6⟩]) ∧
    ∃ la lo,
      (⟨"aa", "unknown", "Unknown", "Unknown", some 10, some 20,
        some 5⟩ : Detection).lat = some la ∧
      (⟨"aa", "unknown", "Unknown", "Unknown", some 10, some 20,
        some 5⟩ : Detection).lon = some lo ∧
      -90 ≤ la ∧ la ≤ 90 ∧ -180 ≤ lo ∧ lo ≤ 180 ∧ ¬(la = 0 ∧ lo = 0) :=
  ⟨by decide,
    extract_device_only_valid
      [⟨some ("AA"), none, DeviceBlob.absent, 10, 20, some 5⟩,
       ⟨some ("BB"), none, DeviceBlob.absent, 200, 20, some 6⟩]
      "aa"
      [⟨"aa", "unknown", "Unknown", "Unknown", some 10, some 20, some 5⟩]
      (by decide)
      ⟨"aa", "unknown", "Unknown", "Unknown", some 10, some 20, some 5⟩
      (by decide)⟩

/-! ## Blob-decode failure handling -/

/-- C7 (amended): an alert row whose blob fails to decode is skipped
and the batch continues with the remaining rows; a device row whose
blob fails to decode is not dropped: when its coordinates are valid it
is retained with default attribute fields, exactly as with an empty
blob. Decoding failure never aborts the batch (both extractors are
total functions of the row list). -/
theorem blob_decode_failure_handling :
    (∀ (xs : List AlertRow) (r : AlertRow) (ys : List AlertRow),
      r.blob = AlertBlob.bad →
      extract_alerts_from_kismet (xs ++ r :: ys) =
        extract_alerts_from_kismet xs ++ extract_alerts_from_kismet ys) ∧
    (∀ row : DeviceRow, row.blob = DeviceBlob.bad →
      is_valid_lat_lon row.minLat row.minLon = true →
      processDevice row = some
        ⟨normLower row.devmac, normLower row.devType, "Unknown", "Unknown",
          some row.minLat, some row.minLon, truthyTime row.lastTime⟩) := by
  constructor
  · intro xs r ys hbad
    have hnone : processAlert r = none := by
      simp [processAlert, hbad]
    simp [extract_alerts_from_kismet, List.filterMap_append,
      List.filterMap_cons, hnone]
  · intro row hbad hv
    simp only [processDevice, hbad, hv, if_true]
    have hstrip : sanitize_string (some ("Unknown")) = "Unknown" := by decide
    simp [dictOfDeviceBlob, hstrip]

/-- Witness for C7: a concrete undecodable alert row vanishes from its
batch, and a concrete undecodable device row is still normalized. -/
theorem blob_decode_failure_handling_witness :
    extract_alerts_from_kismet
        ([⟨some ("X"), AlertBlob.absent, some 1⟩] ++
          (⟨some ("A"), AlertBlob.bad, some 2⟩ : AlertRow) ::
            [⟨some ("Y"), AlertBlob.absent, some 3⟩]) =
      extract_alerts_from_kismet [⟨some ("X"), AlertBlob.absent, some 1⟩] ++
        extract_alerts_from_kismet [⟨some ("Y"), AlertBlob.absent, some 3⟩] ∧
    processDevice ⟨some ("AA"), some ("T"), DeviceBlob.bad, 10, 20, some 5⟩ =
      some ⟨normLower (some ("AA")), normLower (some ("T")), "Unknown",
        "Unknown", some 10, some 20, truthyTime (some 5)⟩ :=
  ⟨blob_decode_failure_handling.1
      [⟨some ("X"), AlertBlob.absent, some 1⟩]
      ⟨some ("A"), AlertBlob.bad, some 2⟩
      [⟨some ("Y"), AlertBlob.absent, some 3⟩] rfl,
    blob_decode_failure_handling.2
      ⟨some ("AA"), some ("T"), DeviceBlob.bad, 10, 20, some 5⟩ rfl
      (by decide)⟩

/-- Counterexample for C7 as stated: a device row whose blob fails to
decode is not dropped — it still produces a detection, with default
display fields. -/
theorem device_bad_blob_retained_counterexample :
    extract_device_detections
        [⟨some ("AA"), some ("T"), DeviceBlob.bad, 10, 20, some 5⟩] ≠ [] ∧
    extract_device_detections
        [⟨some ("AA"), some ("T"), DeviceBlob.bad, 10, 20, some 5⟩] =
      [("aa", [⟨"aa", "t", "Unknown", "Unknown", some 10, some 20, some 5⟩])] := by
  constructor
  · decide
  · decide

/-! ## Alert pass-through and zero-coordinate coercion -/

/-- C5: an alert whose coordinate pair is already valid keeps its
original location, whatever device data is present. -/
theorem alert_valid_passthrough (center : ℚ × ℚ)
    (device_data : List Detection) (a : Alert) (la lo : ℚ)
    (h1 : a.lat = some la) (h2 : a.lon = some lo)
    (h3 : is_valid_lat_lon la lo = true) :
    resolve_alert center device_data a = (la, lo) := by
  simp [resolve_alert, is_valid_opt, h1, h2, h3]

/-- Witness for C5: the alert at (40, -73) passes through unchanged in
the presence of other sightings. -/
theorem alert_valid_passthrough_witness :
    is_valid_lat_lon 40 (-73) = true ∧
    resolve_alert (1, 2)
        [⟨"aa", "t", "n", "e", some 41, some (-74), some 200⟩]
        ⟨"u", "m", "t", some 40, some (-73), some 150⟩ = (40, -73) :=
  ⟨by decide,
    alert_valid_passthrough (1, 2)
      [⟨"aa", "t", "n", "e", some 41, some (-74), some 200⟩]
      ⟨"u", "m", "t", some 40, some (-73), some 150⟩
      40 (-73) rfl rfl (by decide)⟩

/-- C10: whichever extraction path produced it (the geopoint or the
separate lat/lon keys, both covered by rawLatLon), a raw extracted
latitude or longitude of exactly zero is coerced to null by the
truthiness test, so the alert has no valid position and is handled by
the relocation logic rather than passing through. -/
theorem alert_zero_coordinate_coerced
    (r : AlertRow) (d : AlertDict)
    (hb : r.blob = AlertBlob.ok d)
    (hzero : (rawLatLon d).1 = some 0 ∨ (rawLatLon d).2 = some 0)
    (center : ℚ × ℚ) (device_data : List Detection) :
    ∃ a : Alert, processAlert r = some a ∧
      a.lat = truthyFloat (rawLatLon d).1 ∧
      a.lon = truthyFloat (rawLatLon d).2 ∧
      ((rawLatLon d).1 = some 0 → a.lat = none) ∧
      ((rawLatLon d).2 = some 0 → a.lon = none) ∧
      is_valid_opt a.lat a.lon = false ∧
      resolve_alert center device_data a =
        locate_invalid center device_data a := by
  have h0 : truthyFloat (some 0) = none := by simp [truthyFloat]
  have hval : is_valid_opt (truthyFloat (rawLatLon d).1)
      (truthyFloat (rawLatLon d).2) = false := by
    rcases hzero with h | h
    · rw [h, h0]
      cases truthyFloat (rawLatLon d).2 <;> simp [is_valid_opt]
    · rw [h, h0]
      cases truthyFloat (rawLatLon d).1 <;> simp [is_valid_opt]
  refine ⟨⟨normLower r.devmac,
    sanitize_string (some (d.text.getD ("No message"))),
    sanitize_string (some (d.cls.getD ("Unknown"))),
    truthyFloat (rawLatLon d).1, truthyFloat (rawLatLon d).2,
    truthyTime r.tsSec⟩, ?_, rfl, rfl, ?_, ?_, hval,
    by simp [resolve_alert, hval]⟩
  · simp [processAlert, hb]
  · intro h
    rw [h]
    exact h0
  · intro h
    rw [h]
    exact h0

/-- Witness for C10, the scenario of the claim: an alert carrying a
genuine fix at (0, -73) through the separate lat/lon keys loses its
latitude and is relocated. -/
theorem alert_zero_coordinate_coerced_witness :
    ∃ a : Alert,
      processAlert ⟨some ("M"),
        AlertBlob.ok ⟨some ("msg"), some ("cls"),
          some ⟨none, some 0, some (-73)⟩⟩, some 7⟩ = some a ∧
      a.lat = truthyFloat (rawLatLon ⟨some ("msg"), some ("cls"),
        some ⟨none, some 0, some (-73)⟩⟩).1 ∧
      a.lon = truthyFloat (rawLatLon ⟨some ("msg"), some ("cls"),
        some ⟨none, some 0, some (-73)⟩⟩).2 ∧
      ((rawLatLon ⟨some ("msg"), some ("cls"),
        some ⟨none, some 0, some (-73)⟩⟩).1 = some 0 → a.lat = none) ∧
      ((rawLatLon ⟨some ("msg"), some ("cls"),
        some ⟨none, some 0, some (-73)⟩⟩).2 = some 0 → a.lon = none) ∧
      is_valid_opt a.lat a.lon = false ∧
      resolve_alert (1, 2)
          [⟨"aa", "t", "n", "e", some 40, some (-73), some 5⟩] a =
        locate_invalid (1, 2)
          [⟨"aa", "t", "n", "e", some 40, some (-73), some 5⟩] a :=
  alert_zero_coordinate_coerced
    ⟨some ("M"), AlertBlob.ok ⟨some ("msg"), some ("cls"),
      some ⟨none, some 0, some (-73)⟩⟩, some 7⟩
    ⟨some ("msg"), some ("cls"), some ⟨none, some 0, some (-73)⟩⟩
    rfl (Or.inl (by decide)) (1, 2)
    [⟨"aa", "t", "n", "e", some 40, some (-73), some 5⟩]

/-! ## The alert relocation logic -/

/-- Every detection reaching the visualization comes from the grouped
input and already passed the validity filter; over the extraction
output, it therefore satisfies the extraction invariant. -/
lemma device_data_of_extract_mem (rows : List DeviceRow) (d : Detection)
    (hd : d ∈ device_data_of (extract_device_detections rows)) :
    is_valid_opt d.lat d.lon = true ∧ d.lastTime ≠ some 0 := by
  have hperm := List.perm_insertionSort detLe
    (((extract_device_detections rows).map Prod.snd).flatten.filter
      fun x => is_valid_opt x.lat x.lon)
  have hd2 := hperm.subset hd
  obtain ⟨hd3, hval⟩ := List.mem_filter.mp hd2
  obtain ⟨ds, hds, hdin⟩ := List.mem_flatten.mp hd3
  obtain ⟨p, hp, hpeq⟩ := List.mem_map.mp hds
  refine ⟨hval, ?_⟩
  exact (extract_device_invariant rows p hp d (by rw [hpeq]; exact hdin)).2

/-- The visualization device list is sorted by the time key. -/
lemma device_data_of_sorted (dd : List (String × List Detection)) :
    List.Sorted detLe (device_data_of dd) :=
  List.sorted_insertionSort detLe _

/-- In a pairwise-related list, every member is the last element or
relates to it. -/
lemma pairwise_rel_getLast {α : Type} {r : α → α → Prop} :
    ∀ {l : List α} {z x : α}, l.Pairwise r → l.getLast? = some z → x ∈ l →
      x = z ∨ r x z := by
  intro l
  induction l with
  | nil => intro z x _ _ hx; simp at hx
  | cons a t ih =>
    intro z x hp hz hx
    cases t with
    | nil =>
      simp only [List.getLast?_singleton, Option.some.injEq] at hz
      simp only [List.mem_singleton] at hx
      subst hz; subst hx
      exact Or.inl rfl
    | cons b t2 =>
      have hz2 : (b :: t2).getLast? = some z := by
        simpa [List.getLast?_cons_cons] using hz
      rcases List.mem_cons.mp hx with rfl | hx2
      · have hzmem : z ∈ b :: t2 := by
          obtain ⟨hne, hzeq⟩ := List.mem_getLast?_eq_getLast (l := b :: t2) hz2
          rw [hzeq]
          exact List.getLast_mem hne
        exact Or.inr ((List.pairwise_cons.mp hp).1 z hzmem)
      · exact ih (List.pairwise_cons.mp hp).2 hz2 hx2

/-- Relocation when a preceding device exists: the last element of the
filtered device list is used, with the fixed offset. -/
lemma locate_invalid_getLast (center : ℚ × ℚ) (L : List Detection)
    (a : Alert) (t : ℚ) (ht : a.time = some t) (hLne : L ≠ [])
    (ref : Detection)
    (href : (L.filter fun d =>
        match d.lastTime with
        | some u => decide (u ≠ 0 ∧ u ≤ t)
        | none => false).getLast? = some ref) :
    locate_invalid center L a =
      (ref.lat.getD 0 + 1/2000, ref.lon.getD 0 + 1/2000) := by
  cases L with
  | nil => exact absurd rfl hLne
  | cons d1 rest =>
    simp only [locate_invalid, ht]
    rw [href]

/-- Relocation when no preceding device exists but devices do: the
first device is used, with the fixed offset. -/
lemma locate_invalid_head (center : ℚ × ℚ) (L : List Detection)
    (a : Alert) (t : ℚ) (ht : a.time = some t)
    (d1 : Detection) (rest : List Detection) (hL : L = d1 :: rest)
    (hempty : (L.filter fun d =>
        match d.lastTime with
        | some u => decide (u ≠ 0 ∧ u ≤ t)
        | none => false) = []) :
    locate_invalid center L a =
      (d1.lat.getD 0 + 1/2000, d1.lon.getD 0 + 1/2000) := by
  subst hL
  simp only [locate_invalid, ht]
  rw [hempty]
  rfl

/-- Relocation without a timestamp: always the map center. -/
lemma locate_invalid_no_time (center : ℚ × ℚ) (L : List Detection)
    (a : Alert) (ht : a.time = none) :
    locate_invalid center L a = center := by
  simp [locate_invalid, ht]

/-- Relocation without devices: always the map center. -/
lemma locate_invalid_no_devices (center : ℚ × ℚ) (a : Alert) :
    locate_invalid center [] a = center := by
  cases ht : a.time <;> simp [locate_invalid, ht]

/-- Invalid coordinates route the alert through the relocation logic. -/
lemma resolve_alert_invalid (center : ℚ × ℚ) (L : List Detection)
    (a : Alert) (hinv : is_valid_opt a.lat a.lon = false) :
    resolve_alert center L a = locate_invalid center L a := by
  simp [resolve_alert, hinv]

/-- C3: an alert without valid coordinates but with a timestamp, when
some sighting has a (non-null) timestamp at or before the alert, lands
on the sighting whose timestamp is the latest among those, offset by
0.0005 on both axes — never on a later sighting. -/
theorem alert_relocated_to_latest_preceding
    (rows : List DeviceRow) (center : ℚ × ℚ) (a : Alert) (t : ℚ)
    (ht : a.time = some t)
    (hinv : is_valid_opt a.lat a.lon = false)
    (hex : ∃ d ∈ device_data_of (extract_device_detections rows),
      ∃ u : ℚ, d.lastTime = some u ∧ u ≤ t) :
    ∃ d ∈ device_data_of (extract_device_detections rows), ∃ u : ℚ,
      d.lastTime = some u ∧ u ≤ t ∧
      (∀ d' ∈ device_data_of (extract_device_detections rows), ∀ u' : ℚ,
        d'.lastTime = some u' → u' ≤ t → u' ≤ u) ∧
      resolve_alert center (device_data_of (extract_device_detections rows)) a =
        (d.lat.getD 0 + 1/2000, d.lon.getD 0 + 1/2000) := by
  obtain ⟨d0, hd0L, u0, hu0, hu0t⟩ := hex
  have hLne : device_data_of (extract_device_detections rows) ≠ [] := by
    intro h
    rw [h] at hd0L
    simp at hd0L
  have hd0f : d0 ∈ (device_data_of (extract_device_detections rows)).filter
      fun d =>
        match d.lastTime with
        | some u => decide (u ≠ 0 ∧ u ≤ t)
        | none => false := by
    rw [List.mem_filter]
    refine ⟨hd0L, ?_⟩
    have hne0 : u0 ≠ 0 := by
      intro h0
      exact (device_data_of_extract_mem rows d0 hd0L).2 (by rw [hu0, h0])
    simp [hu0, hne0, hu0t]
  have hfne : (device_data_of (extract_device_detections rows)).filter
      (fun d =>
        match d.lastTime with
        | some u => decide (u ≠ 0 ∧ u ≤ t)
        | none => false) ≠ [] := by
    intro h
    rw [h] at hd0f
    simp at hd0f
  have href := List.getLast?_eq_getLast _ hfne
  set ref := ((device_data_of (extract_device_detections rows)).filter
      (fun d =>
        match d.lastTime with
        | some u => decide (u ≠ 0 ∧ u ≤ t)
        | none => false)).getLast hfne with hrefdef
  have hrefmem : ref ∈ (device_data_of (extract_device_detections rows)).filter
      (fun d =>
        match d.lastTime with
        | some u => decide (u ≠ 0 ∧ u ≤ t)
        | none => false) := List.getLast_mem hfne
  obtain ⟨hrefL, hrefp⟩ := List.mem_filter.mp hrefmem
  cases hreft : ref.lastTime with
  | none => simp [hreft] at hrefp
  | some u =>
    have hu : u ≠ 0 ∧ u ≤ t := by simpa [hreft] using hrefp
    refine ⟨ref, hrefL, u, hreft, hu.2, ?_, ?_⟩
    · intro d' hd' u' hu' hut
      have hne0 : u' ≠ 0 := by
        intro h0
        exact (device_data_of_extract_mem rows d' hd').2 (by rw [hu', h0])
      have hd'f : d' ∈ (device_data_of (extract_device_detections rows)).filter
          fun d =>
            match d.lastTime with
            | some u => decide (u ≠ 0 ∧ u ≤ t)
            | none => false :=
        List.mem_filter.mpr ⟨hd', by simp [hu', hne0, hut]⟩
      have hsor : ((device_data_of (extract_device_detections rows)).filter
          (fun d =>
            match d.lastTime with
            | some u => decide (u ≠ 0 ∧ u ≤ t)
            | none => false)).Pairwise detLe :=
        List.Pairwise.filter _ (device_data_of_sorted _)
      rcases pairwise_rel_getLast hsor href hd'f with heq | hrel
      · rw [heq, hreft] at hu'
        cases hu'
        exact le_refl _
      · simpa [detLe, timeKey, hu', hreft] using hrel
    · rw [resolve_alert_invalid center _ a hinv]
      exact locate_invalid_getLast center _ a t ht hLne ref href

/-- Witness for C3, the scenario of the spec: sightings at t=100 and
t=200, alert at t=150 without coordinates, lands beside the t=100
sighting at (40.0005, -72.9995). -/
theorem alert_relocated_to_latest_preceding_witness :
    (⟨"u", "m", "t", none, none, some 150⟩ : Alert).time = some 150 ∧
    ∃ d ∈ device_data_of (extract_device_detections
        [⟨some ("A1"), none, DeviceBlob.absent, 40, -73, some 100⟩,
         ⟨some ("A2"), none, DeviceBlob.absent, 41, -74, some 200⟩]),
      ∃ u : ℚ, d.lastTime = some u ∧ u ≤ 150 ∧
      (∀ d' ∈ device_data_of (extract_device_detections
          [⟨some ("A1"), none, DeviceBlob.absent, 40, -73, some 100⟩,
           ⟨some ("A2"), none, DeviceBlob.absent, 41, -74, some 200⟩]),
        ∀ u' : ℚ, d'.lastTime = some u' → u' ≤ 150 → u' ≤ u) ∧
      resolve_alert (1, 2)
          (device_data_of (extract_device_detections
            [⟨some ("A1"), none, DeviceBlob.absent, 40, -73, some 100⟩,
             ⟨some ("A2"), none, DeviceBlob.absent, 41, -74, some 200⟩]))
          ⟨"u", "m", "t", none, none, some 150⟩ =
        (d.lat.getD 0 + 1/2000, d.lon.getD 0 + 1/2000) :=
  ⟨rfl,
    alert_relocated_to_latest_preceding
      [⟨some ("A1"), none, DeviceBlob.absent, 40, -73, some 100⟩,
       ⟨some ("A2"), none, DeviceBlob.absent, 41, -74, some 200⟩]
      (1, 2) ⟨"u", "m", "t", none, none, some 150⟩ 150 rfl rfl
      (by decide)⟩

/-- C4 (amended): an alert without valid coordinates falls back to the
chronologically earliest sighting (plus the fixed offset) only when it
has a timestamp, sightings exist, and none is at or before the alert;
when the alert has no timestamp, or when no sightings exist, it falls
back to the caller-supplied map center — even if sightings exist. -/
theorem alert_invalid_fallback
    (rows : List DeviceRow) (center : ℚ × ℚ) (a : Alert) :
    (a.time = none → is_valid_opt a.lat a.lon = false →
      resolve_alert center (device_data_of (extract_device_detections rows)) a
        = center) ∧
    (device_data_of (extract_device_detections rows) = [] →
      is_valid_opt a.lat a.lon = false →
      resolve_alert center (device_data_of (extract_device_detections rows)) a
        = center) ∧
    (∀ t : ℚ, a.time = some t → is_valid_opt a.lat a.lon = false →
      ∀ (d1 : Detection) (rest : List Detection),
        device_data_of (extract_device_detections rows) = d1 :: rest →
        (∀ d ∈ device_data_of (extract_device_detections rows), ∀ u : ℚ,
          d.lastTime = some u → ¬ u ≤ t) →
        (∀ d ∈ device_data_of (extract_device_detections rows),
          timeKey d1 ≤ timeKey d) ∧
        resolve_alert center
            (device_data_of (extract_device_detections rows)) a =
          (d1.lat.getD 0 + 1/2000, d1.lon.getD 0 + 1/2000)) := by
  refine ⟨?_, ?_, ?_⟩
  · intro ht hinv
    rw [resolve_alert_invalid center _ a hinv]
    exact locate_invalid_no_time center _ a ht
  · intro hL hinv
    rw [resolve_alert_invalid center _ a hinv, hL]
    exact locate_invalid_no_devices center a
  · intro t ht hinv d1 rest hL hnone
    constructor
    · intro d hd
      have hsor := device_data_of_sorted (extract_device_detections rows)
      rw [hL] at hsor hd
      rcases List.mem_cons.mp hd with rfl | hd2
      · exact le_refl _
      · exact (List.pairwise_cons.mp hsor).1 d hd2
    · have hempty : ((device_data_of (extract_device_detections rows)).filter
          fun d =>
            match d.lastTime with
            | some u => decide (u ≠ 0 ∧ u ≤ t)
            | none => false) = [] := by
        rw [List.filter_eq_nil_iff]
        intro d hd
        cases hdt : d.lastTime with
        | none => simp
        | some u =>
          have := hnone d hd u hdt
          simp [this]
      rw [resolve_alert_invalid center _ a hinv]
      exact locate_invalid_head center _ a t ht d1 rest hL hempty

/-- Witness for C4 at a concrete input: a timestamped alert earlier
than every sighting is placed beside the earliest sighting. -/
theorem alert_invalid_fallback_witness :
    (∀ d ∈ device_data_of (extract_device_detections
        [⟨some ("A1"), none, DeviceBlob.absent, 40, -73, some 100⟩]),
      timeKey (⟨"a1", "unknown", "Unknown", "Unknown", some 40, some (-73),
        some 100⟩ : Detection) ≤ timeKey d) ∧
    resolve_alert (1, 2)
        (device_data_of (extract_device_detections
          [⟨some ("A1"), none, DeviceBlob.absent, 40, -73, some 100⟩]))
        ⟨"u", "m", "t", none, none, some 50⟩ =
      ((40 : ℚ) + 1/2000, (-73 : ℚ) + 1/2000) :=
  (alert_invalid_fallback
    [⟨some ("A1"), none, DeviceBlob.absent, 40, -73, some 100⟩]
    (1, 2) ⟨"u", "m", "t", none, none, some 50⟩).2.2 50 rfl rfl
    ⟨"a1", "unknown", "Unknown", "Unknown", some 40, some (-73), some 100⟩
    [] (by decide)
    (by
      intro d hd u hu
      have hL : device_data_of (extract_device_detections
          [⟨some ("A1"), none, DeviceBlob.absent, 40, -73, some 100⟩]) =
          [⟨"a1", "unknown", "Unknown", "Unknown", some 40, some (-73),
            some 100⟩] := by decide
      rw [hL] at hd
      simp only [List.mem_singleton] at hd
      subst hd
      simp only [Option.some.injEq] at hu
      subst hu
      decide)

/-- Counterexample for C4 as stated: an alert with no timestamp is
placed at the map center even though a sighting exists; it does not
fall back to the earliest sighting. -/
theorem alert_no_timestamp_center_counterexample :
    device_data_of (extract_device_detections
        [⟨some ("A1"), none, DeviceBlob.absent, 40, -73, some 100⟩]) ≠ [] ∧
    resolve_alert (1, 2)
        (device_data_of (extract_device_detections
          [⟨some ("A1"), none, DeviceBlob.absent, 40, -73, some 100⟩]))
        ⟨"u", "m", "t", none, none, none⟩ = (1, 2) ∧
    ((1 : ℚ), (2 : ℚ)) ≠ ((40 : ℚ) + 1/2000, (-73 : ℚ) + 1/2000) := by
  refine ⟨by decide, by decide, by norm_num⟩

/-! ## The snooper-detection walk -/

/-- The detection distance is a haversine value, hence nonnegative. -/
lemma distOf_nonneg (d1 d2 : Detection) : 0 ≤ distOf d1 d2 :=
  haversine_nonneg _ _ _ _

/-- With both coordinate pairs present, the guarded pair distance is the
plain distance. -/
lemma pairDistance_eq_distOf (d1 d2 : Detection) (h1 : HasCoords d1)
    (h2 : HasCoords d2) : pairDistance d1 d2 = some (distOf d1 d2) := by
  obtain ⟨h1a, h1b⟩ := h1
  obtain ⟨h2a, h2b⟩ := h2
  cases e1 : d1.lat with
  | none => exact absurd e1 h1a
  | some la1 =>
    cases e2 : d1.lon with
    | none => exact absurd e2 h1b
    | some lo1 =>
      cases e3 : d2.lat with
      | none => exact absurd e3 h2a
      | some la2 =>
        cases e4 : d2.lon with
        | none => exact absurd e4 h2b
        | some lo2 => simp [pairDistance, distOf, e1, e2, e3, e4]

/-- The walk returns nothing exactly when every consecutive distance is
below the threshold (all coordinates present). -/
lemma walkPairs_eq_none_iff (thr : ℝ) :
    ∀ (prev : Detection) (rest : List Detection) (acc : ℝ),
      (∀ d ∈ prev :: rest, HasCoords d) →
      (walkPairs thr prev rest acc = none ↔
        ∀ x ∈ consecDists (prev :: rest), x < thr) := by
  intro prev rest
  induction rest generalizing prev with
  | nil => intro acc h; simp [walkPairs, consecDists]
  | cons d ds ih =>
    intro acc h
    have hpd := pairDistance_eq_distOf prev d (h prev (by simp)) (h d (by simp))
    simp only [walkPairs, hpd]
    by_cases hth : thr ≤ distOf prev d
    · rw [if_pos hth]
      refine iff_of_false (by simp) ?_
      intro hall
      exact absurd (hall (distOf prev d) (by simp [consecDists])) (not_lt.mpr hth)
    · rw [if_neg hth]
      rw [ih d (acc + distOf prev d) (fun x hx => h x (List.mem_cons_of_mem _ hx))]
      simp [consecDists, List.forall_mem_cons, not_le.mp hth]

/-- When the walk stops with a total, the consecutive-distance list
splits at a first breach: everything before it is below the threshold,
the breaching distance reaches it, and the total is the accumulator
plus the distances up to and including the breach. -/
lemma walkPairs_eq_some_spec (thr : ℝ) :
    ∀ (prev : Detection) (rest : List Detection) (acc v : ℝ),
      (∀ d ∈ prev :: rest, HasCoords d) →
      walkPairs thr prev rest acc = some v →
      ∃ pre x post, consecDists (prev :: rest) = pre ++ x :: post ∧
        (∀ y ∈ pre, y < thr) ∧ thr ≤ x ∧ v = acc + (pre.sum + x) := by
  intro prev rest
  induction rest generalizing prev with
  | nil => intro acc v h hw; simp [walkPairs] at hw
  | cons d ds ih =>
    intro acc v h hw
    have hpd := pairDistance_eq_distOf prev d (h prev (by simp)) (h d (by simp))
    simp only [walkPairs, hpd] at hw
    by_cases hth : thr ≤ distOf prev d
    · rw [if_pos hth] at hw
      have hv := Option.some.inj hw
      refine ⟨[], distOf prev d, consecDists (d :: ds), by simp [consecDists],
        by simp, hth, ?_⟩
      rw [← hv]
      simp
    · rw [if_neg hth] at hw
      obtain ⟨pre, x, post, heq, hpre, hx, hv⟩ :=
        ih d (acc + distOf prev d) v (fun y hy => h y (List.mem_cons_of_mem _ hy)) hw
      refine ⟨distOf prev d :: pre, x, post, by simp [consecDists, heq], ?_, hx, ?_⟩
      · intro y hy
        rcases List.mem_cons.mp hy with rfl | hy2
        · exact not_le.mp hth
        · exact hpre y hy2
      · rw [hv]
        simp only [List.sum_cons]
        ring

/-- Structure of a produced snooper finding: its MAC is the entry key,
its detections are the sorted track, and the track had at least two
sightings. -/
lemma snooperOf_eq_some_mac (thr : ℝ) (md : String × List Detection)
    (s : Snooper) (h : snooperOf thr md = some s) :
    s.mac = md.1 ∧ s.detections = sortDetections md.2 ∧ 2 ≤ md.2.length := by
  unfold snooperOf at h
  by_cases hlen : md.2.length < 2
  · simp [hlen] at h
  · rw [if_neg hlen] at h
    rcases e : sortDetections md.2 with _ | ⟨d0, rest⟩
    · rw [e] at h; simp at h
    · rw [e] at h
      obtain ⟨td, _, hs⟩ := Option.map_eq_some'.mp h
      rw [← hs]
      exact ⟨rfl, rfl, not_lt.mp hlen⟩

/-- A track of at least two all-coordinate sightings with a breaching
consecutive distance produces a snooper finding. -/
lemma snooperOf_some_of_breach (thr : ℝ) (md : String × List Detection)
    (hlen : 2 ≤ md.2.length) (hco : ∀ d ∈ md.2, HasCoords d)
    (hbr : ∃ x ∈ consecDists (sortDetections md.2), thr ≤ x) :
    ∃ s, snooperOf thr md = some s := by
  unfold snooperOf
  rw [if_neg (not_lt.mpr hlen)]
  have hperm := List.perm_insertionSort detLe md.2
  rcases e : sortDetections md.2 with _ | ⟨d0, rest⟩
  · have := hperm.length_eq
    rw [show List.insertionSort detLe md.2 = sortDetections md.2 from rfl, e] at this
    simp at this
    omega
  · have hco2 : ∀ d ∈ d0 :: rest, HasCoords d := by
      intro d hd
      apply hco
      apply hperm.subset
      rw [show List.insertionSort detLe md.2 = sortDetections md.2 from rfl, e]
      exact hd
    obtain ⟨x, hxmem, hx⟩ := hbr
    rw [e] at hxmem
    have hnone : walkPairs thr d0 rest 0 ≠ none := by
      intro hn
      have hall := (walkPairs_eq_none_iff thr d0 rest 0 hco2).mp hn
      exact absurd hx (not_le.mpr (hall x hxmem))
    obtain ⟨td, htd⟩ := Option.ne_none_iff_exists'.mp hnone
    refine ⟨Snooper.mk md.1 (d0 :: rest) td, ?_⟩
    show Option.map (fun td => Snooper.mk md.1 (d0 :: rest) td)
      (walkPairs thr d0 rest 0) = some (Snooper.mk md.1 (d0 :: rest) td)
    rw [htd]
    rfl

/-- In an association list with distinct keys, a key determines its
value. -/
lemma keys_nodup_unique {mac : String} :
    ∀ {dd : List (String × List Detection)} {b c : List Detection},
      (dd.map Prod.fst).Nodup → (mac, b) ∈ dd → (mac, c) ∈ dd → b = c := by
  intro dd
  induction dd with
  | nil => intro b c _ hb; simp at hb
  | cons p rest ih =>
    intro b c hnd hb hc
    obtain ⟨k, ds⟩ := p
    simp only [List.map_cons, List.nodup_cons] at hnd
    rcases List.mem_cons.mp hb with heq | hb2
    · obtain ⟨hk, hds⟩ := Prod.mk.injEq .. ▸ heq
      rcases List.mem_cons.mp hc with heq2 | hc2
      · obtain ⟨_, hds2⟩ := Prod.mk.injEq .. ▸ heq2
        rw [hds, hds2]
      · exfalso
        exact hnd.1 (List.mem_map.mpr ⟨(mac, c), hc2, by simp [hk]⟩)
    · rcases List.mem_cons.mp hc with heq2 | hc2
      · obtain ⟨hk, _⟩ := Prod.mk.injEq .. ▸ heq2
        exfalso
        exact hnd.1 (List.mem_map.mpr ⟨(mac, b), hb2, by simp [hk]⟩)
      · exact ih hnd.2 hb2 hc2

/-- A key absent from the input produces no finding with that MAC. -/
lemma detect_countP_zero (thr : ℝ) (mac : String) :
    ∀ dd : List (String × List Detection), mac ∉ dd.map Prod.fst →
      (detect_snoopers dd thr).countP (fun s => s.mac == mac) = 0 := by
  intro dd
  induction dd with
  | nil => intro _; simp [detect_snoopers]
  | cons p rest ih =>
    intro hmac
    simp only [detect_snoopers, List.filterMap_cons]
    have hrest : mac ∉ rest.map Prod.fst := fun h => hmac (by simp [h])
    cases hsn : snooperOf thr p with
    | none => exact ih hrest
    | some s =>
      have hsmac : s.mac = p.1 := (snooperOf_eq_some_mac thr p s hsn).1
      rw [List.countP_cons]
      have hp1 : p.1 ≠ mac := fun h =>
        hmac (by simp only [List.map_cons, List.mem_cons]; exact Or.inl h.symm)
      have hbe : (s.mac == mac) = false := by
        rw [hsmac]
        exact beq_eq_false_iff_ne.mpr hp1
      rw [hbe]
      simp only [Bool.false_eq_true, if_false, add_zero]
      exact ih hrest

/-- With distinct keys, each MAC appears at most once among the
findings. -/
lemma detect_countP_le_one (thr : ℝ) (mac : String) :
    ∀ dd : List (String × List Detection), (dd.map Prod.fst).Nodup →
      (detect_snoopers dd thr).countP (fun s => s.mac == mac) ≤ 1 := by
  intro dd
  induction dd with
  | nil => intro _; simp [detect_snoopers]
  | cons p rest ih =>
    intro hnd
    simp only [List.map_cons, List.nodup_cons] at hnd
    simp only [detect_snoopers, List.filterMap_cons]
    cases hsn : snooperOf thr p with
    | none => exact ih hnd.2
    | some s =>
      have hsmac : s.mac = p.1 := (snooperOf_eq_some_mac thr p s hsn).1
      rw [List.countP_cons]
      by_cases hp1 : p.1 = mac
      · have hzero : (detect_snoopers rest thr).countP
            (fun s => s.mac == mac) = 0 :=
          detect_countP_zero thr mac rest (hp1 ▸ hnd.1)
        simp only [detect_snoopers] at hzero
        rw [hzero]
        split <;> omega
      · have hbe : (s.mac == mac) = false := by
          rw [hsmac]
          exact beq_eq_false_iff_ne.mpr hp1
        rw [hbe]
        simp only [Bool.false_eq_true, if_false, add_zero]
        exact ih hnd.2

/-- Membership of a sorted track element in the original track. -/
lemma mem_of_mem_sortDetections {d : Detection} {l : List Detection}
    (h : d ∈ sortDetections l) : d ∈ l :=
  (List.perm_insertionSort detLe l).subset h

/-- C1 (amended: the breach comparison is greater-or-equal, not
strictly-greater): over tracks of all-coordinate sightings with
distinct device keys, a device is classified exactly when it has at
least two sightings and some consecutive distance of its time-sorted
track is at least the threshold; each device appears at most once; and
every finding for the device carries the sorted track and records the
accumulated distance up to and including the first breaching pair. -/
theorem detect_snoopers_characterization
    (dd : List (String × List Detection)) (thr : ℝ)
    (hnd : (dd.map Prod.fst).Nodup)
    (hco : ∀ p ∈ dd, ∀ d ∈ p.2, HasCoords d)
    (mac : String) (dets : List Detection) (hmem : (mac, dets) ∈ dd) :
    ((∃ s ∈ detect_snoopers dd thr, s.mac = mac) ↔
      2 ≤ dets.length ∧ ∃ x ∈ consecDists (sortDetections dets), thr ≤ x) ∧
    (detect_snoopers dd thr).countP (fun s => s.mac == mac) ≤ 1 ∧
    (∀ s ∈ detect_snoopers dd thr, s.mac = mac →
      s.detections = sortDetections dets ∧
      ∃ pre x post, consecDists (sortDetections dets) = pre ++ x :: post ∧
        (∀ y ∈ pre, y < thr) ∧ thr ≤ x ∧ s.total_distance = pre.sum + x) := by
  have hcodets : ∀ d ∈ dets, HasCoords d := hco (mac, dets) hmem
  have hpart3 : ∀ s ∈ detect_snoopers dd thr, s.mac = mac →
      s.detections = sortDetections dets ∧
      ∃ pre x post, consecDists (sortDetections dets) = pre ++ x :: post ∧
        (∀ y ∈ pre, y < thr) ∧ thr ≤ x ∧ s.total_distance = pre.sum + x := by
    intro s hs hsmac
    obtain ⟨p, hp, hsp⟩ := List.mem_filterMap.mp hs
    obtain ⟨hm1, hdet, hlen⟩ := snooperOf_eq_some_mac thr p s hsp
    have hp1 : p.1 = mac := by rw [← hm1, hsmac]
    have hpmem : (mac, p.2) ∈ dd := by
      have : p = (mac, p.2) := by
        rw [← hp1]
      rw [← this]
      exact hp
    have hdets : p.2 = dets := keys_nodup_unique hnd hpmem hmem
    subst hdets
    refine ⟨hdet, ?_⟩
    unfold snooperOf at hsp
    rw [if_neg (not_lt.mpr hlen)] at hsp
    rcases e : sortDetections p.2 with _ | ⟨d0, rest⟩
    · rw [e] at hsp; simp at hsp
    · rw [e] at hsp
      obtain ⟨td, hw, hstd⟩ := Option.map_eq_some'.mp hsp
      have hco2 : ∀ d ∈ d0 :: rest, HasCoords d := by
        intro d hd
        exact hcodets d (mem_of_mem_sortDetections (e ▸ hd))
      obtain ⟨pre, x, post, heq, hpre, hx, hv⟩ :=
        walkPairs_eq_some_spec thr d0 rest 0 td hco2 hw
      refine ⟨pre, x, post, heq, hpre, hx, ?_⟩
      rw [← hstd]
      simpa using hv
  refine ⟨⟨?_, ?_⟩, detect_countP_le_one thr mac dd hnd, hpart3⟩
  · rintro ⟨s, hs, hsmac⟩
    obtain ⟨p, hp, hsp⟩ := List.mem_filterMap.mp hs
    obtain ⟨hm1, _, hlen⟩ := snooperOf_eq_some_mac thr p s hsp
    have hp1 : p.1 = mac := by rw [← hm1, hsmac]
    have hpmem : (mac, p.2) ∈ dd := by
      have : p = (mac, p.2) := by rw [← hp1]
      rw [← this]
      exact hp
    have hdets : p.2 = dets := keys_nodup_unique hnd hpmem hmem
    obtain ⟨_, ⟨pre, x, post, heq, _, hx, _⟩⟩ := hpart3 s hs hsmac
    exact ⟨hdets ▸ hlen, x, by rw [heq]; simp, hx⟩
  · rintro ⟨hlen, hbr⟩
    obtain ⟨s, hsp⟩ := snooperOf_some_of_breach thr (mac, dets) hlen hcodets hbr
    refine ⟨s, List.mem_filterMap.mpr ⟨(mac, dets), hmem, hsp⟩, ?_⟩
    exact (snooperOf_eq_some_mac thr (mac, dets) s hsp).1

/-- C9: a nonpositive movement threshold classifies every device with
at least two all-coordinate sightings as a snooper at the very first
consecutive pair of its sorted track, recording that first pairwise
distance as the total. -/
theorem detect_snoopers_nonpositive_threshold
    (dd : List (String × List Detection)) (thr : ℝ) (hthr : thr ≤ 0)
    (mac : String) (dets : List Detection) (hmem : (mac, dets) ∈ dd)
    (hlen : 2 ≤ dets.length) (hco : ∀ d ∈ dets, HasCoords d) :
    ∃ s ∈ detect_snoopers dd thr, s.mac = mac ∧
      ∃ x rest2, consecDists (sortDetections dets) = x :: rest2 ∧
        s.total_distance = x := by
  have hslen : (sortDetections dets).length = dets.length :=
    (List.perm_insertionSort detLe dets).length_eq
  rcases e : sortDetections dets with _ | ⟨d0, _ | ⟨d1, rest2⟩⟩
  · rw [e] at hslen
    simp at hslen
    omega
  · rw [e] at hslen
    simp at hslen
    omega
  · have hd0 : HasCoords d0 := hco d0 (mem_of_mem_sortDetections (by rw [e]; simp))
    have hd1 : HasCoords d1 := hco d1 (mem_of_mem_sortDetections (by rw [e]; simp))
    have hpd := pairDistance_eq_distOf d0 d1 hd0 hd1
    have h0le : thr ≤ distOf d0 d1 := le_trans hthr (distOf_nonneg d0 d1)
    have hsnoop : snooperOf thr (mac, dets) =
        some (Snooper.mk mac (d0 :: d1 :: rest2) (0 + distOf d0 d1)) := by
      unfold snooperOf
      rw [if_neg (not_lt.mpr hlen)]
      have hmatch : sortDetections (mac, dets).2 = d0 :: d1 :: rest2 := e
      rw [hmatch]
      show Option.map (fun td => Snooper.mk mac (d0 :: d1 :: rest2) td)
        (walkPairs thr d0 (d1 :: rest2) 0) =
          some (Snooper.mk mac (d0 :: d1 :: rest2) (0 + distOf d0 d1))
      simp only [walkPairs, hpd]
      rw [if_pos h0le]
      rfl
    refine ⟨Snooper.mk mac (d0 :: d1 :: rest2) (0 + distOf d0 d1),
      List.mem_filterMap.mpr ⟨(mac, dets), hmem, hsnoop⟩, rfl,
      distOf d0 d1, consecDists (d1 :: rest2), ?_, ?_⟩
    · rfl
    · show 0 + distOf d0 d1 = distOf d0 d1
      ring

/-- Witness for C1 at a concrete input: a single device with two
coincident sightings against threshold 1. -/
theorem detect_snoopers_characterization_witness :
    ((∃ s ∈ detect_snoopers
        [("aa", [⟨"aa", "t", "n", "e", some 10, some 20, some 1⟩,
                 ⟨"aa", "t", "n", "e", some 10, some 20, some 2⟩])] 1,
      s.mac = "aa") ↔
      2 ≤ ([⟨"aa", "t", "n", "e", some 10, some 20, some 1⟩,
            ⟨"aa", "t", "n", "e", some 10, some 20, some 2⟩] :
              List Detection).length ∧
      ∃ x ∈ consecDists (sortDetections
        [⟨"aa", "t", "n", "e", some 10, some 20, some 1⟩,
         ⟨"aa", "t", "n", "e", some 10, some 20, some 2⟩]), (1 : ℝ) ≤ x) ∧
    (detect_snoopers
        [("aa", [⟨"aa", "t", "n", "e", some 10, some 20, some 1⟩,
                 ⟨"aa", "t", "n", "e", some 10, some 20, some 2⟩])] 1).countP
      (fun s => s.mac == "aa") ≤ 1 ∧
    (∀ s ∈ detect_snoopers
        [("aa", [⟨"aa", "t", "n", "e", some 10, some 20, some 1⟩,
                 ⟨"aa", "t", "n", "e", some 10, some 20, some 2⟩])] 1,
      s.mac = "aa" →
      s.detections = sortDetections
        [⟨"aa", "t", "n", "e", some 10, some 20, some 1⟩,
         ⟨"aa", "t", "n", "e", some 10, some 20, some 2⟩] ∧
      ∃ pre x post, consecDists (sortDetections
          [⟨"aa", "t", "n", "e", some 10, some 20, some 1⟩,
           ⟨"aa", "t", "n", "e", some 10, some 20, some 2⟩]) =
            pre ++ x :: post ∧
        (∀ y ∈ pre, y < (1 : ℝ)) ∧ (1 : ℝ) ≤ x ∧
        s.total_distance = pre.sum + x) :=
  detect_snoopers_characterization
    [("aa", [⟨"aa", "t", "n", "e", some 10, some 20, some 1⟩,
             ⟨"aa", "t", "n", "e", some 10, some 20, some 2⟩])] 1
    (by decide) (by decide) "aa"
    [⟨"aa", "t", "n", "e", some 10, some 20, some 1⟩,
     ⟨"aa", "t", "n", "e", some 10, some 20, some 2⟩] (by decide)

/-- Counterexample for C1 as stated: with threshold 0 and two coincident
sightings, the device is classified although no consecutive distance
strictly exceeds the threshold. -/
theorem detect_strict_exceeds_counterexample :
    (∃ s ∈ detect_snoopers
        [("aa", [⟨"aa", "t", "n", "e", some 10, some 20, some 1⟩,
                 ⟨"aa", "t", "n", "e", some 10, some 20, some 2⟩])] 0,
      s.mac = "aa") ∧
    ¬ ∃ x ∈ consecDists (sortDetections
        [⟨"aa", "t", "n", "e", some 10, some 20, some 1⟩,
         ⟨"aa", "t", "n", "e", some 10, some 20, some 2⟩]), (0 : ℝ) < x := by
  have hs : sortDetections
      [(⟨"aa", "t", "n", "e", some 10, some 20, some 1⟩ : Detection),
       ⟨"aa", "t", "n", "e", some 10, some 20, some 2⟩] =
      [⟨"aa", "t", "n", "e", some 10, some 20, some 1⟩,
       ⟨"aa", "t", "n", "e", some 10, some 20, some 2⟩] := by decide
  have hdist : distOf (⟨"aa", "t", "n", "e", some 10, some 20, some 1⟩ : Detection)
      ⟨"aa", "t", "n", "e", some 10, some 20, some 2⟩ = 0 := by
    show haversine 20 10 20 10 = 0
    exact haversine_self 20 10
  constructor
  · obtain ⟨s, hsp⟩ := snooperOf_some_of_breach 0
      ("aa", [(⟨"aa", "t", "n", "e", some 10, some 20, some 1⟩ : Detection),
              ⟨"aa", "t", "n", "e", some 10, some 20, some 2⟩])
      (by decide) (by decide)
      ⟨distOf (⟨"aa", "t", "n", "e", some 10, some 20, some 1⟩ : Detection)
          ⟨"aa", "t", "n", "e", some 10, some 20, some 2⟩,
        by rw [hs]; simp [consecDists], distOf_nonneg _ _⟩
    exact ⟨s, List.mem_filterMap.mpr
      ⟨("aa", [⟨"aa", "t", "n", "e", some 10, some 20, some 1⟩,
               ⟨"aa", "t", "n", "e", some 10, some 20, some 2⟩]),
        by simp, hsp⟩,
      (snooperOf_eq_some_mac 0 _ s hsp).1⟩
  · rw [hs]
    rintro ⟨x, hxmem, hx⟩
    have : x = distOf (⟨"aa", "t", "n", "e", some 10, some 20, some 1⟩ : Detection)
        ⟨"aa", "t", "n", "e", some 10, some 20, some 2⟩ := by
      simpa [consecDists] using hxmem
    rw [this, hdist] at hx
    exact lt_irrefl 0 hx

/-- Witness for C9 at a concrete input: threshold 0 flags the device
with two coincident sightings at its first pair. -/
theorem detect_snoopers_nonpositive_threshold_witness :
    (0 : ℝ) ≤ 0 ∧
    ∃ s ∈ detect_snoopers
        [("aa", [⟨"aa", "t", "n", "e", some 10, some 20, some 1⟩,
                 ⟨"aa", "t", "n", "e", some 10, some 20, some 2⟩])] 0,
      s.mac = "aa" ∧
      ∃ x rest2, consecDists (sortDetections
          [⟨"aa", "t", "n", "e", some 10, some 20, some 1⟩,
           ⟨"aa", "t", "n", "e", some 10, some 20, some 2⟩]) = x :: rest2 ∧
        s.total_distance = x :=
  ⟨le_refl 0,
    detect_snoopers_nonpositive_threshold
      [("aa", [⟨"aa", "t", "n", "e", some 10, some 20, some 1⟩,
               ⟨"aa", "t", "n", "e", some 10, some 20, some 2⟩])] 0
      (le_refl 0) "aa"
      [⟨"aa", "t", "n", "e", some 10, some 20, some 1⟩,
       ⟨"aa", "t", "n", "e", some 10, some 20, some 2⟩]
      (by decide) (by decide) (by decide)⟩

end SnoopR
